import Mathlib

/-!
Verification of the stromkompis electricity-price pipeline.

The development shallowly embeds the two python scripts of the repository:

* `scripts/process_prices.py` — the aggregation engine and summary emitter
  (`calculate_monthly_stats`, `process_year_directory`, `main`);
* `scripts/download_prices.py` — the fetch/retry layer and sync loop
  (`fetch_url`, `load_json`, the per-key cache step, and the calendar
  iteration of `main`).

Numeric values are modelled by exact rationals (`ℚ`); the float literals
`1.25`, `0.90` of the source become `5/4`, `9/10`.  Python's `round(x, 2)`
is modelled as round-half-to-even on the exact rational value.  A JSON
hourly record is modelled by `HourRecord`, whose fields are `Option`s
because a record may lack them; a `KeyError` raised by a missing key is
modelled by the enclosing computation returning `none`.
-/

namespace Stromkompis

/-- An hourly price record as read from a rollup or day JSON file.  The
source accesses `hour['NOK_per_kWh']` (raising `KeyError` when absent) and
checks `'time_end' in hour`, so both fields are optional here. -/
structure HourRecord where
  NOK_per_kWh : Option ℚ
  time_end : Option String
deriving DecidableEq, Repr

/-- `STROMSTOTTE_GRUNNLAG_EKS_MVA = 77.00` from `process_prices.py`. -/
def STROMSTOTTE_GRUNNLAG_EKS_MVA : ℚ := 77

/-- `DEKNINGSGRAD = 0.90` from `process_prices.py`. -/
def DEKNINGSGRAD : ℚ := 9/10

/-- The `for hour in data` loop of `calculate_monthly_stats`, carrying the
accumulators `(total_spot_ore, total_subsidy_ore, count, latest_timestamp)`.
A record whose `NOK_per_kWh` key is absent raises `KeyError` in the source,
which aborts the whole computation: modelled by returning `none`. -/
def aggHoursAux (mva tak : ℚ) :
    List HourRecord → ℚ × ℚ × ℕ × Option String → Option (ℚ × ℚ × ℕ × Option String)
  | [], st => some st
  | h :: rest, (ts, tsub, c, lt) =>
    match h.NOK_per_kWh with
    | none => none
    | some raw =>
      let spot := raw * 100 * mva
      let subsidy := if spot > tak then (spot - tak) * DEKNINGSGRAD else 0
      aggHoursAux mva tak rest
        (ts + spot, tsub + subsidy, c + 1,
          match h.time_end with
          | some t => some t
          | none => lt)

/-- `calculate_monthly_stats(json_file_path, zone)` of `process_prices.py`,
applied to the already-parsed JSON array.  Returns
`(avg_spot, avg_subsidy, latest_timestamp)`; the python `(0, 0, None)` early
returns become `some (0, 0, none)`, and a `KeyError` on a malformed record
becomes `none`. -/
def calculate_monthly_stats (data : List HourRecord) (zone : String) :
    Option (ℚ × ℚ × Option String) :=
  if data = [] then some (0, 0, none)
  else
    let mva : ℚ := if zone = "NO4" then 1 else 5/4
    let tak := STROMSTOTTE_GRUNNLAG_EKS_MVA * mva
    match aggHoursAux mva tak data (0, 0, 0, none) with
    | none => none
    | some (ts, tsub, c, lt) =>
      if c = 0 then some (0, 0, none)
      else some (ts / (c : ℚ), tsub / (c : ℚ), lt)

/-! Spec-side policy formulas, written from the words of the specification
(section 4.4) for comparison with the code above. -/

/-- Spec: VAT factor is 1.0 for zone "NO4", 1.25 for all other zones. -/
def specVatFactor (zone : String) : ℚ := if zone = "NO4" then 1 else 5/4

/-- Spec: per-hour spot price is `raw_price_per_kwh * 100 * vat_factor`. -/
def specSpot (zone : String) (raw : ℚ) : ℚ := raw * 100 * specVatFactor zone

/-- Spec: effective cap is `77.00 * vat_factor`. -/
def specCap (zone : String) : ℚ := 77 * specVatFactor zone

/-- Spec: per-hour subsidy is `max(0, hour_spot_price - effective_cap) * 0.90`. -/
def specSubsidy (zone : String) (raw : ℚ) : ℚ :=
  max 0 (specSpot zone raw - specCap zone) * (9/10)

/-- Builds a well-formed record (price present) from a price and an optional
timestamp. -/
def mkRec (p : ℚ × Option String) : HourRecord := ⟨some p.1, p.2⟩

/-- The timestamps actually present in a list of (price, timestamp) pairs. -/
def presentTEs (ps : List (ℚ × Option String)) : List String :=
  ps.filterMap Prod.snd

/-- The value of the `latest_timestamp` accumulator after folding the loop
body over `ps`, starting from `lt`. -/
def lastTE : Option String → List (ℚ × Option String) → Option String
  | lt, [] => lt
  | lt, p :: rest =>
    lastTE (match p.2 with
            | some t => some t
            | none => lt) rest

lemma aggHoursAux_mkRec (mva tak : ℚ) (ps : List (ℚ × Option String))
    (ts tsub : ℚ) (c : ℕ) (lt : Option String) :
    aggHoursAux mva tak (ps.map mkRec) (ts, tsub, c, lt) =
      some (ts + (ps.map (fun p => p.1 * 100 * mva)).sum,
            tsub + (ps.map (fun p =>
              if p.1 * 100 * mva > tak then (p.1 * 100 * mva - tak) * DEKNINGSGRAD else 0)).sum,
            c + ps.length,
            lastTE lt ps) := by
  induction ps generalizing ts tsub c lt with
  | nil => simp [aggHoursAux, lastTE]
  | cons p rest ih =>
    simp only [List.map_cons, aggHoursAux, mkRec, List.sum_cons, List.length_cons, lastTE]
    rw [ih]
    simp only [Option.some.injEq, Prod.mk.injEq]
    exact ⟨by ring, by ring, by omega, trivial⟩

/-- The code's per-hour subsidy branch agrees with the spec's `max` form. -/
lemma code_subsidy_eq_spec (zone : String) (raw : ℚ) :
    (if raw * 100 * specVatFactor zone > specCap zone then
       (raw * 100 * specVatFactor zone - specCap zone) * DEKNINGSGRAD
     else 0) = specSubsidy zone raw := by
  unfold specSubsidy specSpot DEKNINGSGRAD
  rcases le_or_lt (raw * 100 * specVatFactor zone) (specCap zone) with h | h
  · rw [if_neg (not_lt.mpr h), max_eq_left (by linarith), zero_mul]
  · rw [if_pos h, max_eq_right (by linarith)]

lemma specVatFactor_eq (zone : String) :
    (if zone = "NO4" then (1 : ℚ) else 5/4) = specVatFactor zone := rfl

lemma specCap_eq (zone : String) :
    STROMSTOTTE_GRUNNLAG_EKS_MVA * specVatFactor zone = specCap zone := rfl

/-- Evaluation of `calculate_monthly_stats` on a non-empty list of
well-formed records, phrased with the spec-side policy functions. -/
lemma calculate_monthly_stats_mkRec (zone : String) (p : ℚ × Option String)
    (ps : List (ℚ × Option String)) :
    calculate_monthly_stats ((p :: ps).map mkRec) zone =
      some ((((p :: ps).map (fun q => specSpot zone q.1)).sum / ((p :: ps).length : ℚ)),
            (((p :: ps).map (fun q => specSubsidy zone q.1)).sum / ((p :: ps).length : ℚ)),
            lastTE none (p :: ps)) := by
  unfold calculate_monthly_stats
  rw [if_neg (by simp)]
  show (match aggHoursAux (specVatFactor zone) (specCap zone)
          ((p :: ps).map mkRec) (0, 0, 0, none) with
        | none => none
        | some (ts, tsub, c, lt) =>
          if c = 0 then some (0, 0, none)
          else some (ts / (c : ℚ), tsub / (c : ℚ), lt)) = _
  rw [aggHoursAux_mkRec]
  have hsub : ∀ q : ℚ × Option String,
      (if q.1 * 100 * specVatFactor zone > specCap zone then
         (q.1 * 100 * specVatFactor zone - specCap zone) * DEKNINGSGRAD else 0)
        = specSubsidy zone q.1 := fun q => code_subsidy_eq_spec zone q.1
  simp only [hsub, zero_add, Nat.zero_add]
  rw [if_neg (by simp)]
  rfl

/-- C1: `calculate_monthly_stats` applies the policy to every hourly record:
the VAT factor is 1.0 for zone "NO4" and 1.25 otherwise, the per-hour spot
price is `raw * 100 * vat_factor`, the effective cap is `77.00 * vat_factor`,
the per-hour subsidy is `max(0, spot - cap) * 0.90`, and for a non-empty
rollup the returned `spot_avg` and `subsidy_avg` are the arithmetic means of
the per-hour values; in particular for zone "NO4" with hourly price 1.00 the
spot price is 100.00, the cap 77.00 and the subsidy 20.70. -/
theorem calculate_monthly_stats_applies_policy (zone : String)
    (p : ℚ × Option String) (ps : List (ℚ × Option String)) :
    (calculate_monthly_stats ((p :: ps).map mkRec) zone =
      some ((((p :: ps).map (fun q => specSpot zone q.1)).sum / ((p :: ps).length : ℚ)),
            (((p :: ps).map (fun q => specSubsidy zone q.1)).sum / ((p :: ps).length : ℚ)),
            lastTE none (p :: ps)))
    ∧ specVatFactor "NO4" = 1
    ∧ (∀ z, z ≠ "NO4" → specVatFactor z = 5/4)
    ∧ specSpot "NO4" 1 = 100
    ∧ specCap "NO4" = 77
    ∧ specSubsidy "NO4" 1 = 207/10 := by
  refine ⟨calculate_monthly_stats_mkRec zone p ps, by norm_num [specVatFactor],
    fun z hz => by simp [specVatFactor, hz], by norm_num [specSpot, specVatFactor],
    by norm_num [specCap, specVatFactor], ?_⟩
  norm_num [specSubsidy, specSpot, specCap, specVatFactor]

/-- Witness for C1 at a concrete input: one NO4 hour priced 1.00 NOK/kWh. -/
theorem calculate_monthly_stats_applies_policy_witness :
    calculate_monthly_stats [⟨some 1, some "2025-01-01T01:00:00+01:00"⟩] "NO4" =
      some (100, 207/10, some "2025-01-01T01:00:00+01:00") := by
  have h := (calculate_monthly_stats_applies_policy "NO4"
    (1, some "2025-01-01T01:00:00+01:00") []).1
  have hval : (0 : ℚ) ⊔ (100 - 77) = 23 := by norm_num
  have hval2 : (23 : ℚ) * (9 / 10) = 207 / 10 := by norm_num
  simpa [mkRec, lastTE, specSpot, specSubsidy, specCap, specVatFactor, hval, hval2] using h

/-! String primitives.  Python's `str.split(sep)` and its lexicographic
(code-point) string comparison are embedded structurally over the character
list of a `String`, so that concrete runs reduce. -/

/-- Python's `str.split(c)` for a single-character separator, on the
character list: splits at every occurrence, keeping empty pieces. -/
def splitChar (c : Char) : List Char → List (List Char)
  | [] => [[]]
  | x :: xs =>
    let r := splitChar c xs
    if x = c then [] :: r
    else
      match r with
      | [] => [[x]]
      | y :: ys => (x :: y) :: ys

/-- Python's `str.split(c)` on strings. -/
def pySplit (s : String) (c : Char) : List String :=
  (splitChar c s.data).map String.mk

/-- Lexicographic (code-point) order on character lists: Python's `<` on
`str`. -/
def charListLt : List Char → List Char → Bool
  | [], [] => false
  | [], _ :: _ => true
  | _ :: _, [] => false
  | a :: as, b :: bs =>
    if a < b then true
    else if b < a then false
    else charListLt as bs

/-- Python's `<` on strings. -/
def pyStrLt (a b : String) : Bool := charListLt a.data b.data

/-- Python's `<=` on strings. -/
def pyStrLe (a b : String) : Bool := !(pyStrLt b a)

lemma charListLt_asymm : ∀ {a b : List Char},
    charListLt a b = true → charListLt b a = false := by
  intro a
  induction a with
  | nil => intro b h; cases b with
    | nil => simp [charListLt] at h
    | cons x xs => simp [charListLt]
  | cons a as ih =>
    intro b h
    cases b with
    | nil => simp [charListLt] at h
    | cons x xs =>
      simp only [charListLt] at h ⊢
      rcases lt_trichotomy a x with hax | hax | hax
      · rw [if_neg (lt_asymm hax), if_pos hax]
      · subst hax
        rw [if_neg (lt_irrefl a), if_neg (lt_irrefl a)] at h ⊢
        exact ih h
      · rw [if_neg (lt_asymm hax), if_pos hax] at h
        exact absurd h (by simp)

lemma charListLt_trans : ∀ {a b c : List Char},
    charListLt a b = true → charListLt b c = true → charListLt a c = true := by
  intro a
  induction a with
  | nil =>
    intro b c hab hbc
    cases b with
    | nil => simp [charListLt] at hab
    | cons x xs =>
      cases c with
      | nil => simp [charListLt] at hbc
      | cons y ys => simp [charListLt]
  | cons a as ih =>
    intro b c hab hbc
    cases b with
    | nil => simp [charListLt] at hab
    | cons x xs =>
      cases c with
      | nil => simp [charListLt] at hbc
      | cons y ys =>
        simp only [charListLt] at hab hbc ⊢
        rcases lt_trichotomy a x with hax | hax | hax
        · rcases lt_trichotomy x y with hxy | hxy | hxy
          · rw [if_pos (lt_trans hax hxy)]
          · subst hxy; rw [if_pos hax]
          · rw [if_neg (lt_asymm hxy), if_pos hxy] at hbc
            exact absurd hbc (by simp)
        · subst hax
          rw [if_neg (lt_irrefl a), if_neg (lt_irrefl a)] at hab
          rcases lt_trichotomy a y with hay | hay | hay
          · rw [if_pos hay]
          · subst hay
            rw [if_neg (lt_irrefl a), if_neg (lt_irrefl a)] at hbc ⊢
            exact ih hab hbc
          · rw [if_neg (lt_asymm hay), if_pos hay] at hbc
            exact absurd hbc (by simp)
        · rw [if_neg (lt_asymm hax), if_pos hax] at hab
          exact absurd hab (by simp)

lemma charListLt_conn : ∀ {a b : List Char},
    charListLt a b = false → charListLt b a = false → a = b := by
  intro a
  induction a with
  | nil =>
    intro b hab _
    cases b with
    | nil => rfl
    | cons x xs => simp [charListLt] at hab
  | cons a as ih =>
    intro b hab hba
    cases b with
    | nil => simp [charListLt] at hba
    | cons x xs =>
      simp only [charListLt] at hab hba
      rcases lt_trichotomy a x with hax | hax | hax
      · rw [if_pos hax] at hab; exact absurd hab (by simp)
      · subst hax
        rw [if_neg (lt_irrefl a), if_neg (lt_irrefl a)] at hab hba
        rw [ih hab hba]
      · rw [if_pos hax] at hba; exact absurd hba (by simp)

lemma pyStrLe_total (a b : String) : pyStrLe a b = true ∨ pyStrLe b a = true := by
  unfold pyStrLe pyStrLt
  rcases h : charListLt b.data a.data with _ | _
  · left; simp
  · right; simp [charListLt_asymm h]

lemma pyStrLe_trans {a b c : String} (hab : pyStrLe a b = true)
    (hbc : pyStrLe b c = true) : pyStrLe a c = true := by
  unfold pyStrLe pyStrLt at hab hbc ⊢
  simp only [Bool.not_eq_true'] at hab hbc ⊢
  cases h : charListLt c.data a.data with
  | false => rfl
  | true =>
    exfalso
    cases h2 : charListLt b.data c.data with
    | false =>
      have hbceq := charListLt_conn h2 hbc
      rw [hbceq, h] at hab
      exact Bool.noConfusion hab
    | true =>
      have hba := charListLt_trans h2 h
      rw [hba] at hab
      exact Bool.noConfusion hab

/-! Rounding.  Python's `round(x, 2)` is modelled as round-half-to-even at
two decimal places on the exact rational value. -/

/-- Floor of a rational as an integer (flooring division of numerator by
denominator). -/
def qfloor (q : ℚ) : ℤ := q.num.fdiv q.den

/-- Round-half-to-even to the nearest integer. -/
def roundHalfEven (q : ℚ) : ℤ :=
  let f := qfloor q
  let frac := q - (f : ℚ)
  if frac < 1/2 then f
  else if (1 : ℚ)/2 < frac then f + 1
  else if f % 2 = 0 then f else f + 1

/-- Python's `round(x, 2)` on the exact rational value. -/
def round2 (q : ℚ) : ℚ := ((roundHalfEven (q * 100) : ℤ) : ℚ) / 100

/-- The `MONTH_NAMES` dictionary of `process_prices.py`. -/
def MONTH_NAMES : List (String × String) :=
  [("01", "Jan"), ("02", "Feb"), ("03", "Mar"), ("04", "Apr"),
   ("05", "Mai"), ("06", "Jun"), ("07", "Jul"), ("08", "Aug"),
   ("09", "Sep"), ("10", "Okt"), ("11", "Nov"), ("12", "Des")]

/-- Lookup in a python dict modelled as an insertion-ordered association
list (`d.get(k)` / `d[k]` read access). -/
def getEntry {κ α : Type} [DecidableEq κ] : List (κ × α) → κ → Option α
  | [], _ => none
  | (k', v') :: rest, k => if k' = k then some v' else getEntry rest k

/-- Python dict assignment `d[k] = v`: overwrites in place when the key
exists (keeping its position), appends otherwise. -/
def setEntry {κ α : Type} [DecidableEq κ] : List (κ × α) → κ → α → List (κ × α)
  | [], k, v => [(k, v)]
  | (k', v') :: rest, k, v =>
    if k' = k then (k, v) :: rest else (k', v') :: setEntry rest k v

/-- A monthly rollup file: its basename and its parsed JSON content. -/
structure RollupFile where
  filename : String
  content : List HourRecord
deriving DecidableEq, Repr

/-- The filename-parsing prelude of the `for file_path in files` loop of
`process_year_directory`: `parts = filename.split('_')`, `parts[1]`,
`parts[2]`, `date_part.split('-')[1]` and the `MONTH_NAMES` lookup.  Any
`IndexError` (caught by the source) or unknown month yields `none`, which
the loop treats as `continue`. -/
def parseRollupFilename (filename : String) : Option (String × String) :=
  let parts := pySplit filename '_'
  match parts.get? 1, parts.get? 2 with
  | some date_part, some zone =>
    match (pySplit date_part '-').get? 1 with
    | some month_num =>
      match getEntry MONTH_NAMES month_num with
      | some month_name => some (month_name, zone)
      | none => none
    | none => none
  | _, _ => none

/-- Zone → month-label → (spotAvg, subsidyAvg): the `results` dict of
`process_year_directory`. -/
abbrev ZoneRates := List (String × List (String × (ℚ × ℚ)))

/-- The latest-timestamp update step shared by `process_year_directory` and
`main`: `if t: if latest is None or t > latest: latest = t` (python
truthiness skips `None` and the empty string). -/
def maxFoldStep (latest t : Option String) : Option String :=
  match t with
  | none => latest
  | some s =>
    if s = "" then latest
    else
      match latest with
      | none => some s
      | some l => if pyStrLt l s then some s else some l

/-- The `results[zone][month_name] = {...}` assignment of
`process_year_directory`, including the `if zone not in results` guard. -/
def setZoneMonth (results : ZoneRates) (zone month_name : String)
    (v : ℚ × ℚ) : ZoneRates :=
  let zoneMap := (getEntry results zone).getD []
  setEntry results zone (setEntry zoneMap month_name v)

/-- The `for file_path in files` loop of `process_year_directory`, carrying
`(results, latest_timestamp)`.  A `KeyError` escaping
`calculate_monthly_stats` aborts the run (`none`). -/
def processFilesAux : List RollupFile → ZoneRates × Option String →
    Option (ZoneRates × Option String)
  | [], st => some st
  | f :: rest, (results, latest) =>
    match parseRollupFilename f.filename with
    | none => processFilesAux rest (results, latest)
    | some (month_name, zone) =>
      match calculate_monthly_stats f.content zone with
      | none => none
      | some (avg_spot, avg_subsidy, file_latest) =>
        processFilesAux rest
          (setZoneMonth results zone month_name (round2 avg_spot, round2 avg_subsidy),
           maxFoldStep latest file_latest)

/-- The final `{k: results[k] for k in sorted(results)}` comprehension. -/
def sortResults (results : ZoneRates) : ZoneRates :=
  (List.insertionSort (fun a b => pyStrLe a b = true) (results.map Prod.fst)).filterMap
    (fun k => (getEntry results k).map (fun v => (k, v)))

/-- `process_year_directory(year_dir)` of `process_prices.py`, applied to
the list of `*_TOTAL.json` rollup files found under the year directory. -/
def process_year_directory (files : List RollupFile) :
    Option (ZoneRates × Option String) :=
  if files = [] then some ([], none)
  else
    match processFilesAux files ([], none) with
    | none => none
    | some (results, latest) => some (sortResults results, latest)

/-- The three compatibility-contract exports of the generated artifact
`historicalRates.ts`.  `latestTimestamp = none` means the
`LATEST_TIMESTAMP` export line is absent from the file. -/
structure Artifact where
  availableYears : List ℤ
  ratesByYear : List (ℤ × ZoneRates)
  latestTimestamp : Option String
deriving Repr

/-- The `for d in all_dirs` loop of `main` in `process_prices.py`, carrying
`(years_found, rates_by_year, overall_latest_timestamp)`.  Each directory
is given as the year its basename's `strømpriser_(\d4)` match yields
(`none` when the regex does not match, making the loop skip it) together
with the rollup files it contains. -/
def mainLoopAux : List (Option ℤ × List RollupFile) →
    List ℤ × List (ℤ × ZoneRates) × Option String →
    Option (List ℤ × List (ℤ × ZoneRates) × Option String)
  | [], st => some st
  | (tag, files) :: rest, (years, rates, overall) =>
    match tag with
    | none => mainLoopAux rest (years, rates, overall)
    | some year =>
      match process_year_directory files with
      | none => none
      | some (year_data, latest) =>
        if year_data = [] then
          mainLoopAux rest (years ++ [year], rates, overall)
        else
          mainLoopAux rest (years ++ [year],
            setEntry rates year year_data,
            maxFoldStep overall latest)

/-- Python truthiness of an optional string (`None` and `""` are falsy). -/
def pyTruthyStr : Option String → Bool
  | none => false
  | some s => !(decide (s = ""))

/-- `main()` of `process_prices.py`, from the discovered cache directories
to the emitted artifact: sorts `years_found`, emits the minimal valid file
when no year directory matched, and otherwise emits the collected data,
omitting the `LATEST_TIMESTAMP` export when no timestamp was found. -/
def runMain (dirs : List (Option ℤ × List RollupFile)) : Option Artifact :=
  match mainLoopAux dirs ([], [], none) with
  | none => none
  | some (years, rates, overall) =>
    let sortedYears := List.insertionSort (· ≤ ·) years
    if sortedYears = [] then some ⟨[], [], some ""⟩
    else some ⟨sortedYears, rates, if pyTruthyStr overall then overall else none⟩

/-! Shallow embedding of `scripts/download_prices.py`. -/

/-- What the network returns for one `requests.get` call: an HTTP response
with a status code and parsed JSON body, or a transport-level failure
(`requests.exceptions.RequestException`). -/
inductive NetResponse where
  | status (code : ℕ) (body : List HourRecord)
  | transportError
deriving DecidableEq, Repr

/-- Observable outcome of `fetch_url`: the returned value (`none` models
python `None`), the number of requests performed, and the number of
`time.sleep(RETRY_DELAY_SECONDS)` calls performed. -/
structure FetchOutcome where
  result : Option (List HourRecord)
  requests : ℕ
  sleeps : ℕ
deriving DecidableEq, Repr

/-- `MAX_RETRIES = 5` from `download_prices.py`. -/
def MAX_RETRIES : ℕ := 5

/-- `RETRY_DELAY_SECONDS = 5` from `download_prices.py`. -/
def RETRY_DELAY_SECONDS : ℕ := 5

/-- The `while attempt < MAX_RETRIES` loop of `fetch_url`.  `net i` is the
network's answer to the `i`-th request; `fuel = MAX_RETRIES - attempt`;
`reqs`/`sleeps` count requests made and retry sleeps so far. -/
def fetchAux (net : ℕ → NetResponse) : ℕ → ℕ → ℕ → FetchOutcome
  | 0, reqs, sleeps => ⟨none, reqs, sleeps⟩
  | fuel + 1, reqs, sleeps =>
    match net reqs with
    | NetResponse.transportError => fetchAux net fuel (reqs + 1) (sleeps + 1)
    | NetResponse.status code body =>
      if code = 200 then ⟨some body, reqs + 1, sleeps⟩
      else if code = 404 then ⟨none, reqs + 1, sleeps⟩
      else if code = 429 ∨ (500 ≤ code ∧ code < 600) then
        fetchAux net fuel (reqs + 1) (sleeps + 1)
      else ⟨none, reqs + 1, sleeps⟩

/-- `fetch_url(url)` of `download_prices.py`, run against the network
behaviour `net`. -/
def fetch_url (net : ℕ → NetResponse) : FetchOutcome :=
  fetchAux net MAX_RETRIES 0 0

/-- A response is on the retry path of `fetch_url`: HTTP 429, a 5xx status,
or a transport-level failure. -/
def retryableResp : NetResponse → Prop
  | NetResponse.status code _ => code = 429 ∨ (500 ≤ code ∧ code < 600)
  | NetResponse.transportError => True

/-- On-disk state of one day/zone cache file. -/
inductive FileState where
  | absent
  | corrupt
  | good (data : List HourRecord)
deriving DecidableEq, Repr

/-- `load_json(filepath)` of `download_prices.py`: `None` when the file is
missing or fails to parse. -/
def load_json : FileState → Option (List HourRecord)
  | FileState.absent => none
  | FileState.corrupt => none
  | FileState.good d => some d

/-- Python truthiness of an optional record list (`None` and `[]` falsy). -/
def pyTruthyList : Option (List HourRecord) → Bool
  | none => false
  | some [] => false
  | some (_ :: _) => true

/-- The per-(day, zone) body of the sync loop in `main` of
`download_prices.py` (lines 102-112): read the cache, fetch on a falsy
read, save a truthy fetch result, and collect truthy data for the monthly
aggregation.  Returns (whether a network fetch was performed, the cache
file state afterwards, the records extended into the monthly data). -/
def syncKey (file : FileState) (net : ℕ → NetResponse) :
    Bool × FileState × List HourRecord :=
  let data := load_json file
  if pyTruthyList data then (false, file, data.getD [])
  else
    let fetched := (fetch_url net).result
    if pyTruthyList fetched then
      (true, FileState.good (fetched.getD []), fetched.getD [])
    else (true, file, [])

/-- A calendar date as compared by python's `datetime.date`. -/
structure PyDate where
  year : ℤ
  month : ℕ
  day : ℕ
deriving DecidableEq, Repr

/-- Python's `>` on `datetime.date` (lexicographic on (year, month, day)). -/
def dateGt (a b : PyDate) : Bool :=
  decide (b.year < a.year ∨ (b.year = a.year ∧
    (b.month < a.month ∨ (b.month = a.month ∧ b.day < a.day))))

/-- Gregorian leap-year rule, as used by python's `calendar`. -/
def isLeap (y : ℤ) : Bool :=
  decide ((y % 4 = 0 ∧ y % 100 ≠ 0) ∨ y % 400 = 0)

/-- `calendar.monthrange(year, month)[1]`: days in the month. -/
def daysInMonth (y : ℤ) (m : ℕ) : ℕ :=
  if m = 2 then (if isLeap y then 29 else 28)
  else if m = 4 ∨ m = 6 ∨ m = 9 ∨ m = 11 then 30
  else 31

/-- The months of a year processed by the sync loop: the
`for month in range(1, 13)` loop skips (`continue`) any month whose first
day is strictly after `today`. -/
def monthsProcessed (today : PyDate) (year : ℤ) : List ℕ :=
  (List.range' 1 12).filter (fun m => !(dateGt ⟨year, m, 1⟩ today))

/-- The days of a month processed by the sync loop: the
`for day in range(1, num_days + 1)` loop breaks at the first day strictly
after `today`. -/
def daysProcessed (today : PyDate) (year : ℤ) (month : ℕ) : List ℕ :=
  (List.range' 1 (daysInMonth year month)).takeWhile
    (fun d => !(dateGt ⟨year, month, d⟩ today))

lemma fetchAux_step (net : ℕ → NetResponse) (fuel reqs sleeps : ℕ)
    (h : retryableResp (net reqs)) :
    fetchAux net (fuel + 1) reqs sleeps = fetchAux net fuel (reqs + 1) (sleeps + 1) := by
  cases hn : net reqs with
  | transportError => simp [fetchAux, hn]
  | status code body =>
    rw [hn] at h
    unfold retryableResp at h
    have h200 : ¬(code = 200) := by rcases h with h | ⟨h1, h2⟩ <;> omega
    have h404 : ¬(code = 404) := by rcases h with h | ⟨h1, h2⟩ <;> omega
    simp only [fetchAux, hn]
    rw [if_neg h200, if_neg h404, if_pos h]

lemma fetchAux_retry_run (net : ℕ → NetResponse) (k : ℕ) :
    ∀ fuel reqs sleeps,
      (∀ i, reqs ≤ i → i < reqs + k → retryableResp (net i)) → k ≤ fuel →
      fetchAux net fuel reqs sleeps = fetchAux net (fuel - k) (reqs + k) (sleeps + k) := by
  induction k with
  | zero => intro fuel reqs sleeps _ _; simp
  | succ k ih =>
    intro fuel reqs sleeps h hk
    obtain ⟨f, rfl⟩ : ∃ f, fuel = f + 1 := ⟨fuel - 1, by omega⟩
    rw [fetchAux_step net f reqs sleeps (h reqs le_rfl (by omega))]
    rw [ih f (reqs + 1) (sleeps + 1)
      (fun i h1 h2 => h i (by omega) (by omega)) (by omega)]
    have e1 : f - k = f + 1 - (k + 1) := by omega
    have e2 : reqs + 1 + k = reqs + (k + 1) := by omega
    have e3 : sleeps + 1 + k = sleeps + (k + 1) := by omega
    rw [e1, e2, e3]

/-- C5: `fetch_url` classifies and retries as specified: a 404 returns
immediately with zero retries and zero sleeps; with `k < 5` retryable
answers (429/5xx/transport failure) followed by a 200, it succeeds on
attempt `k + 1` having slept `k` times; five retryable answers exhaust the
attempt budget and yield a failure; and with 3 consecutive 503s followed by
a 200 it succeeds on the 4th attempt with exactly 3 inter-attempt sleeps. -/
theorem fetch_url_retry_policy (net : ℕ → NetResponse) :
    (∀ body, net 0 = NetResponse.status 404 body → fetch_url net = ⟨none, 1, 0⟩)
    ∧ (∀ k body, k < MAX_RETRIES → (∀ i, i < k → retryableResp (net i)) →
        net k = NetResponse.status 200 body → fetch_url net = ⟨some body, k + 1, k⟩)
    ∧ ((∀ i, i < MAX_RETRIES → retryableResp (net i)) →
        fetch_url net = ⟨none, MAX_RETRIES, MAX_RETRIES⟩)
    ∧ fetch_url (fun i => if i < 3 then NetResponse.status 503 []
          else NetResponse.status 200 [⟨some 1, some "t"⟩]) =
        ⟨some [⟨some 1, some "t"⟩], 4, 3⟩ := by
  refine ⟨?_, ?_, ?_, by decide⟩
  · intro body h
    show fetchAux net MAX_RETRIES 0 0 = _
    rw [show MAX_RETRIES = 4 + 1 from rfl]
    simp only [fetchAux, h]
    norm_num
  · intro k body hk hpre h
    show fetchAux net MAX_RETRIES 0 0 = _
    rw [fetchAux_retry_run net k MAX_RETRIES 0 0
      (fun i h1 h2 => hpre i (by omega)) (by omega)]
    obtain ⟨f, hf⟩ : ∃ f, MAX_RETRIES - k = f + 1 := ⟨MAX_RETRIES - k - 1, by omega⟩
    rw [hf, show (0 + k) = k from by omega]
    simp only [fetchAux, h]
    norm_num
  · intro hpre
    show fetchAux net MAX_RETRIES 0 0 = _
    rw [fetchAux_retry_run net MAX_RETRIES MAX_RETRIES 0 0
      (fun i h1 h2 => hpre i (by omega)) le_rfl]
    simp [fetchAux]

/-- Witness for C5: a 404 on the first request returns immediately. -/
theorem fetch_url_retry_policy_witness :
    fetch_url (fun _ => NetResponse.status 404 []) = ⟨none, 1, 0⟩ :=
  (fetch_url_retry_policy (fun _ => NetResponse.status 404 [])).1 [] rfl

/-- Counterexample to C6: a cache entry that exists and is readable (it
parses to the empty record list) nevertheless triggers a network fetch, and
a successful fetch overwrites it. -/
theorem cache_hit_counterexample :
    syncKey (FileState.good []) (fun _ => NetResponse.status 200 [⟨some 1, none⟩]) =
      (true, FileState.good [⟨some 1, none⟩], [⟨some 1, none⟩]) := by decide

/-- C6 amended: a readable cache entry with non-empty data causes zero
network fetches and is never overwritten; a re-fetch is triggered exactly
when the entry is absent, unreadable, or parses to empty data (all falsy to
`if not data`). -/
theorem cache_refetch_policy (net : ℕ → NetResponse) :
    (∀ r rs, syncKey (FileState.good (r :: rs)) net =
        (false, FileState.good (r :: rs), r :: rs))
    ∧ (syncKey FileState.absent net).1 = true
    ∧ (syncKey FileState.corrupt net).1 = true
    ∧ (syncKey (FileState.good []) net).1 = true := by
  refine ⟨fun r rs => by simp [syncKey, load_json, pyTruthyList], ?_, ?_, ?_⟩ <;>
    · simp only [syncKey, load_json, pyTruthyList]
      rcases hr : (fetch_url net).result with _ | d
      · simp
      · cases d <;> simp

lemma dateGt_month_mono (today : PyDate) (year : ℤ) {m m' : ℕ} (h : m ≤ m')
    (hgt : dateGt ⟨year, m, 1⟩ today = true) :
    dateGt ⟨year, m', 1⟩ today = true := by
  simp only [dateGt, decide_eq_true_eq] at hgt ⊢
  omega

lemma dateGt_day_mono (today : PyDate) (year : ℤ) (month : ℕ) {d d' : ℕ}
    (h : d ≤ d') (hgt : dateGt ⟨year, month, d⟩ today = true) :
    dateGt ⟨year, month, d'⟩ today = true := by
  simp only [dateGt, decide_eq_true_eq] at hgt ⊢
  omega

/-- On a weakly increasing list, a predicate that once false stays false
filters to the same result as stopping at the first failure. -/
lemma filter_eq_takeWhile_of_mono (p : ℕ → Bool)
    (hmono : ∀ a b, a ≤ b → p a = false → p b = false) :
    ∀ l : List ℕ, List.Sorted (· ≤ ·) l → l.filter p = l.takeWhile p := by
  intro l
  induction l with
  | nil => intro _; rfl
  | cons a t ih =>
    intro hs
    rw [List.sorted_cons] at hs
    cases hp : p a with
    | true => simp [List.filter_cons, List.takeWhile_cons, hp, ih hs.2]
    | false =>
      simp only [List.filter_cons, List.takeWhile_cons, hp, Bool.false_eq_true,
        if_false, cond_false]
      exact List.filter_eq_nil_iff.mpr
        (fun b hb => by simp [hmono a b (hs.1 b hb) hp])

/-- C7: the month loop of the sync pass skips exactly the months whose
first day is strictly after today, and — months being scanned in ascending
order — this equals stopping at the first future month (no later month of
the year is processed); the day loop stops at the first day strictly after
today, and this processes exactly the days not after today. -/
theorem sync_skips_future (today : PyDate) (year : ℤ) (month : ℕ) :
    monthsProcessed today year =
      (List.range' 1 12).takeWhile (fun m => !(dateGt ⟨year, m, 1⟩ today))
    ∧ daysProcessed today year month =
      (List.range' 1 (daysInMonth year month)).filter
        (fun d => !(dateGt ⟨year, month, d⟩ today)) := by
  have hsorted : ∀ n : ℕ, List.Sorted (· ≤ ·) (List.range' 1 n) :=
    fun n => (List.pairwise_lt_range' 1 n).imp le_of_lt
  have hofneg : ∀ x : Bool, (!x) = false → x = true := by decide
  constructor
  · exact filter_eq_takeWhile_of_mono _
      (fun a b hab hfa => by
        have hx := hofneg _ hfa
        show (!(dateGt ⟨year, b, 1⟩ today)) = false
        simp [dateGt_month_mono today year hab hx]) _ (hsorted 12)
  · exact (filter_eq_takeWhile_of_mono _
      (fun a b hab hfa => by
        have hx := hofneg _ hfa
        show (!(dateGt ⟨year, month, b⟩ today)) = false
        simp [dateGt_day_mono today year month hab hx]) _
      (hsorted (daysInMonth year month))).symm

lemma lastTE_append (xs ys : List (ℚ × Option String)) (lt : Option String) :
    lastTE lt (xs ++ ys) = lastTE (lastTE lt xs) ys := by
  induction xs generalizing lt with
  | nil => rfl
  | cons x xs ih =>
    simp only [List.cons_append, lastTE]
    exact ih _

lemma lastTE_append_no_te (p : ℚ) (xs : List (ℚ × Option String))
    (lt : Option String) :
    lastTE lt (xs ++ [(p, none)]) = lastTE lt xs := by
  rw [lastTE_append]; rfl

/-- C10: an hourly record that has `NOK_per_kWh` but no `time_end` is still
included in both averages (it increments the hour count and contributes its
spot price and subsidy), and is only excluded from latest-timestamp
tracking: appending such a record leaves the reported latest timestamp
unchanged. -/
theorem record_without_time_end_still_counted (zone : String)
    (ps : List (ℚ × Option String)) (p : ℚ) :
    calculate_monthly_stats ((ps ++ [(p, (none : Option String))]).map mkRec) zone =
      some ((((ps ++ [(p, (none : Option String))]).map
                (fun q : ℚ × Option String => specSpot zone q.1)).sum /
               ((ps.length + 1 : ℕ) : ℚ)),
            (((ps ++ [(p, (none : Option String))]).map
                (fun q : ℚ × Option String => specSubsidy zone q.1)).sum /
               ((ps.length + 1 : ℕ) : ℚ)),
            lastTE none ps) := by
  rcases ps with _ | ⟨q, qs⟩
  · simpa [lastTE] using calculate_monthly_stats_mkRec zone (p, none) []
  · simp only [List.cons_append]
    rw [calculate_monthly_stats_mkRec zone q (qs ++ [(p, none)]),
        show lastTE none (q :: (qs ++ [(p, none)])) = lastTE none (q :: qs) from by
          simp only [lastTE]; exact lastTE_append_no_te p qs _]
    norm_num [List.length_append]

lemma aggHoursAux_missing_price (mva tak : ℚ) (te : Option String)
    (post : List HourRecord) :
    ∀ (pre : List HourRecord) (st : ℚ × ℚ × ℕ × Option String),
      aggHoursAux mva tak (pre ++ ⟨none, te⟩ :: post) st = none := by
  intro pre
  induction pre with
  | nil =>
    intro st
    obtain ⟨ts, tsub, c, lt⟩ := st
    rfl
  | cons h pre ih =>
    intro st
    obtain ⟨ts, tsub, c, lt⟩ := st
    simp only [List.cons_append, aggHoursAux]
    cases h.NOK_per_kWh with
    | none => rfl
    | some raw => exact ih _

/-- C4 amended: an hourly record whose `NOK_per_kWh` field is absent makes
the aggregation of that rollup fail with a `KeyError` (modelled `none`),
wherever the record sits; the malformed record is not skipped, no further
records are aggregated, and no skipped-record count exists. -/
theorem missing_price_field_crashes (zone : String)
    (pre post : List HourRecord) (te : Option String) :
    calculate_monthly_stats (pre ++ ⟨none, te⟩ :: post) zone = none := by
  unfold calculate_monthly_stats
  rw [if_neg (by simp)]
  show (match aggHoursAux (specVatFactor zone) (specCap zone)
          (pre ++ ⟨none, te⟩ :: post) (0, 0, 0, none) with
        | none => none
        | some (ts, tsub, c, lt) =>
          if c = 0 then some (0, 0, none)
          else some (ts / (c : ℚ), tsub / (c : ℚ), lt)) = none
  rw [aggHoursAux_missing_price]

/-- Counterexample to C4: with a record missing `NOK_per_kWh` followed by a
well-formed record, `calculate_monthly_stats` crashes (returns `none`)
instead of skipping the malformed record and averaging the rest. -/
theorem missing_price_field_counterexample :
    calculate_monthly_stats [⟨none, none⟩, ⟨some 1, none⟩] "NO1" = none := by decide

lemma charListLt_irrefl : ∀ a : List Char, charListLt a a = false := by
  intro a
  induction a with
  | nil => rfl
  | cons x xs ih =>
    simp only [charListLt]
    rw [if_neg (lt_irrefl x), if_neg (lt_irrefl x)]
    exact ih

lemma pyStrLe_refl (a : String) : pyStrLe a a = true := by
  unfold pyStrLe pyStrLt
  rw [charListLt_irrefl]
  rfl

lemma lastTE_eq_getLast (ps : List (ℚ × Option String)) :
    ∀ lt, lastTE lt ps =
      (match (presentTEs ps).getLast? with
       | some t => some t
       | none => lt) := by
  induction ps with
  | nil => intro lt; rfl
  | cons q ps ih =>
    intro lt
    obtain ⟨x, te⟩ := q
    cases te with
    | none =>
      simp only [lastTE, presentTEs, List.filterMap_cons]
      exact ih lt
    | some s =>
      simp only [lastTE, presentTEs, List.filterMap_cons]
      rw [ih]
      rcases hp : (List.filterMap Prod.snd ps : List String) with _ | ⟨c, cs⟩
      · simp [presentTEs, hp]
      · obtain ⟨v, hv⟩ := Option.isSome_iff_exists.mp
          (List.getLast?_isSome.mpr (by simp) : ((c :: cs).getLast?).isSome)
        simp [presentTEs, hp, List.getLast?_cons_cons, hv]

lemma sorted_getLast_max :
    ∀ (l : List String), List.Pairwise (fun a b => pyStrLe a b = true) l →
      ∀ t ∈ l, ∃ m, l.getLast? = some m ∧ pyStrLe t m = true := by
  intro l
  induction l with
  | nil => intro _ t ht; exact absurd ht (List.not_mem_nil t)
  | cons a l ih =>
    intro hp t ht
    rw [List.pairwise_cons] at hp
    rcases l with _ | ⟨b, l'⟩
    · rw [List.mem_singleton] at ht
      exact ⟨a, rfl, ht ▸ pyStrLe_refl a⟩
    · rw [List.mem_cons] at ht
      rcases ht with rfl | ht
      · obtain ⟨m, hm, hbm⟩ := ih hp.2 b (List.mem_cons_self b l')
        exact ⟨m, by rw [List.getLast?_cons_cons]; exact hm,
          pyStrLe_trans (hp.1 b (List.mem_cons_self b l')) hbm⟩
      · obtain ⟨m, hm, htm⟩ := ih hp.2 t ht
        exact ⟨m, by rw [List.getLast?_cons_cons]; exact hm, htm⟩

/-- Counterexample to C2: a rollup whose records are not in chronological
order.  The reported monthly latest timestamp is the `time_end` of the
*last* record ("2025-01-01..."), not the maximum — the strictly greater
"2025-01-02..." appears earlier in the file and is ignored. -/
theorem latest_timestamp_counterexample :
    calculate_monthly_stats
        [⟨some 1, some "2025-01-02T00:00:00+01:00"⟩,
         ⟨some 1, some "2025-01-01T00:00:00+01:00"⟩] "NO4" =
      some (100, 207/10, some "2025-01-01T00:00:00+01:00")
    ∧ pyStrLt "2025-01-01T00:00:00+01:00" "2025-01-02T00:00:00+01:00" = true := by
  refine ⟨?_, by decide⟩
  have h := calculate_monthly_stats_mkRec "NO4"
    (1, some "2025-01-02T00:00:00+01:00") [(1, some "2025-01-01T00:00:00+01:00")]
  have hval : (0 : ℚ) ⊔ (100 - 77) = 23 := by norm_num
  have hval2 : (23 : ℚ) * (9 / 10) = 207 / 10 := by norm_num
  have hval3 : (207 / 10 + 207 / 10 : ℚ) / 2 = 207 / 10 := by norm_num
  simpa [mkRec, lastTE, specSpot, specSubsidy, specCap, specVatFactor,
    hval, hval2, hval3] using h

/-- The values of a list of optional strings that python finds truthy
(neither `None` nor the empty string). -/
def truthyStrs (ts : List (Option String)) : List String :=
  ts.filterMap (fun o =>
    match o with
    | some s => if s = "" then none else some s
    | none => none)

lemma truthyStrs_cons_none (ts : List (Option String)) :
    truthyStrs (none :: ts) = truthyStrs ts := by
  simp [truthyStrs, List.filterMap_cons]

lemma truthyStrs_cons_empty (ts : List (Option String)) :
    truthyStrs (some "" :: ts) = truthyStrs ts := by
  simp [truthyStrs, List.filterMap_cons]

lemma truthyStrs_cons_some {s : String} (hs : ¬(s = "")) (ts : List (Option String)) :
    truthyStrs (some s :: ts) = s :: truthyStrs ts := by
  simp [truthyStrs, List.filterMap_cons, hs]

lemma pyStrLe_of_lt {a b : String} (h : pyStrLt a b = true) : pyStrLe a b = true := by
  unfold pyStrLt at h
  unfold pyStrLe pyStrLt
  rw [charListLt_asymm h]
  rfl

lemma pyStrLe_of_not_lt {a b : String} (h : pyStrLt b a = false) : pyStrLe a b = true := by
  unfold pyStrLt at h
  unfold pyStrLe pyStrLt
  rw [h]
  rfl

/-- Characterisation of the latest-timestamp fold: the result is the
accumulator or one of the truthy inputs, it dominates every truthy input
and the accumulator, and it is `none` only when the accumulator was `none`
and no input was truthy. -/
lemma foldl_maxFoldStep_char (ts : List (Option String)) :
    ∀ acc : Option String,
      (∀ m, List.foldl maxFoldStep acc ts = some m →
        ((acc = some m ∨ m ∈ truthyStrs ts)
         ∧ (∀ t ∈ truthyStrs ts, pyStrLe t m = true)
         ∧ (∀ a, acc = some a → pyStrLe a m = true)))
      ∧ (List.foldl maxFoldStep acc ts = none →
          acc = none ∧ truthyStrs ts = []) := by
  induction ts with
  | nil =>
    intro acc
    refine ⟨fun m hm => ⟨Or.inl hm, fun t ht => absurd ht (List.not_mem_nil t),
      fun a ha => ?_⟩, fun hn => ⟨hn, rfl⟩⟩
    rw [ha] at hm
    obtain rfl := Option.some.inj hm
    exact pyStrLe_refl a
  | cons o ts' ih =>
    intro acc
    rcases o with _ | s
    · have e1 : List.foldl maxFoldStep acc (none :: ts') =
          List.foldl maxFoldStep acc ts' := rfl
      rw [e1, truthyStrs_cons_none]
      exact ih acc
    · by_cases hs : s = ""
      · subst hs
        have e1 : List.foldl maxFoldStep acc (some "" :: ts') =
            List.foldl maxFoldStep acc ts' := by
          simp [List.foldl_cons, maxFoldStep]
        rw [e1, truthyStrs_cons_empty]
        exact ih acc
      · rw [truthyStrs_cons_some hs]
        rcases acc with _ | l
        · have e1 : List.foldl maxFoldStep none (some s :: ts') =
              List.foldl maxFoldStep (some s) ts' := by
            simp [List.foldl_cons, maxFoldStep, hs]
          rw [e1]
          constructor
          · intro m hm
            obtain ⟨h1, h2, h3⟩ := (ih (some s)).1 m hm
            refine ⟨?_, ?_, fun a ha => by cases ha⟩
            · rcases h1 with h1 | h1
              · obtain rfl := Option.some.inj h1
                exact Or.inr (List.mem_cons_self _ _)
              · exact Or.inr (List.mem_cons_of_mem _ h1)
            · intro t ht
              rcases List.mem_cons.mp ht with rfl | ht
              · exact h3 t rfl
              · exact h2 t ht
          · intro hn
            obtain ⟨h1, _⟩ := (ih (some s)).2 hn
            cases h1
        · by_cases hls : pyStrLt l s = true
          · have e1 : List.foldl maxFoldStep (some l) (some s :: ts') =
                List.foldl maxFoldStep (some s) ts' := by
              simp [List.foldl_cons, maxFoldStep, hs, hls]
            rw [e1]
            constructor
            · intro m hm
              obtain ⟨h1, h2, h3⟩ := (ih (some s)).1 m hm
              refine ⟨?_, ?_, ?_⟩
              · rcases h1 with h1 | h1
                · obtain rfl := Option.some.inj h1
                  exact Or.inr (List.mem_cons_self _ _)
                · exact Or.inr (List.mem_cons_of_mem _ h1)
              · intro t ht
                rcases List.mem_cons.mp ht with rfl | ht
                · exact h3 t rfl
                · exact h2 t ht
              · intro a ha
                obtain rfl := Option.some.inj ha
                exact pyStrLe_trans (pyStrLe_of_lt hls) (h3 s rfl)
            · intro hn
              obtain ⟨h1, _⟩ := (ih (some s)).2 hn
              cases h1
          · have hls' : pyStrLt l s = false := by simpa using hls
            have e1 : List.foldl maxFoldStep (some l) (some s :: ts') =
                List.foldl maxFoldStep (some l) ts' := by
              simp [List.foldl_cons, maxFoldStep, hs, hls']
            rw [e1]
            constructor
            · intro m hm
              obtain ⟨h1, h2, h3⟩ := (ih (some l)).1 m hm
              refine ⟨?_, ?_, ?_⟩
              · rcases h1 with h1 | h1
                · exact Or.inl h1
                · exact Or.inr (List.mem_cons_of_mem _ h1)
              · intro t ht
                rcases List.mem_cons.mp ht with rfl | ht
                · exact pyStrLe_trans (pyStrLe_of_not_lt hls') (h3 l rfl)
                · exact h2 t ht
              · intro a ha
                obtain rfl := Option.some.inj ha
                exact h3 _ rfl
            · intro hn
              obtain ⟨h1, _⟩ := (ih (some l)).2 hn
              cases h1

/-- Spec-side projection for the latest-timestamp chain: the per-file
monthly latest values of a rollup-file list, in file order.  A file whose
name fails to parse contributes nothing; after a crashing file (where the
run aborts) the projection is irrelevant and stops. -/
def fileLatests : List RollupFile → List (Option String)
  | [] => []
  | f :: rest =>
    match parseRollupFilename f.filename with
    | none => fileLatests rest
    | some (_, zone) =>
      match calculate_monthly_stats f.content zone with
      | none => []
      | some (_, _, fl) => fl :: fileLatests rest

lemma processFilesAux_latest :
    ∀ (files : List RollupFile) (results : ZoneRates) (latest : Option String)
      (res : ZoneRates) (lt : Option String),
      processFilesAux files (results, latest) = some (res, lt) →
      lt = List.foldl maxFoldStep latest (fileLatests files) := by
  intro files
  induction files with
  | nil =>
    intro results latest res lt h
    obtain ⟨h1, h2⟩ := Prod.mk.injEq .. ▸ Option.some.inj h
    exact h2.symm
  | cons f rest ih =>
    intro results latest res lt h
    cases hp : parseRollupFilename f.filename with
    | none =>
      simp only [processFilesAux, hp] at h
      simp only [fileLatests, hp]
      exact ih results latest res lt h
    | some mz =>
      obtain ⟨mn, zone⟩ := mz
      cases hc : calculate_monthly_stats f.content zone with
      | none =>
        simp only [processFilesAux, hp, hc] at h
        exact absurd h (by simp)
      | some v =>
        obtain ⟨avg_spot, avg_subsidy, fl⟩ := v
        simp only [processFilesAux, hp, hc] at h
        simp only [fileLatests, hp, hc, List.foldl_cons]
        exact ih _ _ res lt h

lemma process_year_directory_latest (files : List RollupFile)
    (res : ZoneRates) (lt : Option String)
    (h : process_year_directory files = some (res, lt)) :
    lt = List.foldl maxFoldStep none (fileLatests files) := by
  unfold process_year_directory at h
  by_cases hf : files = []
  · rw [if_pos hf] at h
    obtain ⟨h1, h2⟩ := Prod.mk.injEq .. ▸ Option.some.inj h
    subst hf
    exact h2.symm
  · rw [if_neg hf] at h
    cases haux : processFilesAux files ([], none) with
    | none => rw [haux] at h; cases h
    | some st =>
      obtain ⟨results, latest⟩ := st
      rw [haux] at h
      obtain ⟨h1, h2⟩ := Prod.mk.injEq .. ▸ Option.some.inj h
      rw [← h2]
      exact processFilesAux_latest files [] none results latest haux

/-- Spec-side projection: the per-year latest values contributed to the
overall latest-timestamp fold by `main`'s directory loop, in directory
order (only directories that match the year regex and yield non-empty year
data contribute). -/
def yearLatests : List (Option ℤ × List RollupFile) → List (Option String)
  | [] => []
  | (tag, files) :: rest =>
    match tag with
    | none => yearLatests rest
    | some _ =>
      match process_year_directory files with
      | none => []
      | some (year_data, latest) =>
        if year_data = [] then yearLatests rest
        else latest :: yearLatests rest

lemma mainLoopAux_latest :
    ∀ (dirs : List (Option ℤ × List RollupFile)) (years : List ℤ)
      (rates : List (ℤ × ZoneRates)) (overall : Option String)
      (ys : List ℤ) (rs : List (ℤ × ZoneRates)) (ov : Option String),
      mainLoopAux dirs (years, rates, overall) = some (ys, rs, ov) →
      ov = List.foldl maxFoldStep overall (yearLatests dirs) := by
  intro dirs
  induction dirs with
  | nil =>
    intro years rates overall ys rs ov h
    obtain ⟨h1, h2⟩ := Prod.mk.injEq .. ▸ Option.some.inj h
    obtain ⟨h3, h4⟩ := Prod.mk.injEq .. ▸ h2
    exact h4.symm
  | cons d rest ih =>
    intro years rates overall ys rs ov h
    obtain ⟨tag, files⟩ := d
    cases tag with
    | none =>
      simp only [mainLoopAux] at h
      simp only [yearLatests]
      exact ih years rates overall ys rs ov h
    | some year =>
      cases hp : process_year_directory files with
      | none =>
        simp only [mainLoopAux, hp] at h
        exact absurd h (by simp)
      | some st =>
        obtain ⟨year_data, latest⟩ := st
        simp only [mainLoopAux, hp] at h
        by_cases hy : year_data = []
        · rw [if_pos hy] at h
          simp only [yearLatests, hp, if_pos hy]
          exact ih _ _ overall ys rs ov h
        · rw [if_neg hy] at h
          simp only [yearLatests, hp, if_neg hy, List.foldl_cons]
          exact ih _ _ _ ys rs ov h

/-- C2 amended: the per-rollup "latest" timestamp reported by
`calculate_monthly_stats` is the `time_end` of the *last* record bearing
one (so it equals the maximum `period_end` only when the records' present
`time_end` values appear in ascending order, as rollups built in day order
do); the per-year latest reported by `process_year_directory` is the
maximum (by python string comparison) over the truthy per-file latests, and
the Summary's global latest is the maximum over the truthy per-year
latests. -/
theorem latest_timestamp_tracking :
    (∀ (zone : String) (p : ℚ × Option String) (ps : List (ℚ × Option String)),
      (calculate_monthly_stats ((p :: ps).map mkRec) zone).map (fun r => r.2.2) =
        some ((presentTEs (p :: ps)).getLast?))
    ∧ (∀ l : List String, List.Pairwise (fun a b => pyStrLe a b = true) l →
        ∀ t ∈ l, ∃ m, l.getLast? = some m ∧ pyStrLe t m = true)
    ∧ (∀ (files : List RollupFile) (res : ZoneRates) (m : String),
        process_year_directory files = some (res, some m) →
        m ∈ truthyStrs (fileLatests files)
        ∧ ∀ t ∈ truthyStrs (fileLatests files), pyStrLe t m = true)
    ∧ (∀ (dirs : List (Option ℤ × List RollupFile)) (art : Artifact) (m : String),
        runMain dirs = some art → art.availableYears ≠ [] →
        art.latestTimestamp = some m →
        m ∈ truthyStrs (yearLatests dirs)
        ∧ ∀ t ∈ truthyStrs (yearLatests dirs), pyStrLe t m = true) := by
  have collapse : ∀ o : Option String,
      (match o with | some t => some t | none => none) = o := by
    intro o; cases o <;> rfl
  refine ⟨?_, sorted_getLast_max, ?_, ?_⟩
  · intro zone p ps
    rw [calculate_monthly_stats_mkRec, Option.map_some']
    rw [show (((p :: ps).map (fun q => specSpot zone q.1)).sum / ((p :: ps).length : ℚ),
          ((p :: ps).map (fun q => specSubsidy zone q.1)).sum / ((p :: ps).length : ℚ),
          lastTE none (p :: ps)).2.2 = lastTE none (p :: ps) from rfl]
    rw [lastTE_eq_getLast, collapse]
  · intro files res m h
    have hfold := process_year_directory_latest files res (some m) h
    have hchar := ((foldl_maxFoldStep_char (fileLatests files) none).1 m hfold.symm)
    refine ⟨?_, hchar.2.1⟩
    rcases hchar.1 with h1 | h1
    · cases h1
    · exact h1
  · intro dirs art m h hne hlt
    cases haux : mainLoopAux dirs ([], [], none) with
    | none =>
      simp only [runMain, haux] at h
      exact absurd h (by simp)
    | some st =>
      obtain ⟨years, rates, overall⟩ := st
      simp only [runMain, haux] at h
      by_cases hys : List.insertionSort (fun a b => a ≤ b) years = []
      · rw [if_pos hys] at h
        obtain rfl := Option.some.inj h
        exact absurd rfl hne
      · rw [if_neg hys] at h
        obtain rfl := Option.some.inj h
        have hov : overall = some m := by
          by_cases htr : pyTruthyStr overall = true
          · rw [if_pos htr] at hlt; exact hlt
          · rw [if_neg htr] at hlt; cases hlt
        have hfold := mainLoopAux_latest dirs [] [] none years rates overall haux
        rw [hov] at hfold
        have hchar := ((foldl_maxFoldStep_char (yearLatests dirs) none).1 m hfold.symm)
        refine ⟨?_, hchar.2.1⟩
        rcases hchar.1 with h1 | h1
        · cases h1
        · exact h1

/-- Witness for C2 (amended): a one-record NO1 rollup reports that record's
`time_end`. -/
theorem latest_timestamp_tracking_witness :
    (calculate_monthly_stats [⟨some 1, some "2025-02-01T00:00:00+01:00"⟩] "NO1").map
        (fun r => r.2.2) = some (some "2025-02-01T00:00:00+01:00") := by
  have h := latest_timestamp_tracking.1 "NO1" (1, some "2025-02-01T00:00:00+01:00") []
  simpa [presentTEs, mkRec] using h

lemma round2_zero : round2 0 = 0 := by
  norm_num [round2, roundHalfEven, qfloor]

/-- C3 amended: a rollup file with a parseable name whose hourly-record
sequence is empty yields an entry for its (zone, month) with
`spotAvg = 0` and `subsidyAvg = 0` in the emitted mapping — the key is
present with zero values, not absent.  (The sync stage never writes an
empty rollup file, so such a file does not arise from the pipeline
itself.) -/
theorem empty_rollup_zero_entry (f : RollupFile) (nm z : String)
    (hp : parseRollupFilename f.filename = some (nm, z))
    (hc : f.content = []) :
    process_year_directory [f] = some ([(z, [(nm, (0, 0))])], none) := by
  unfold process_year_directory
  rw [if_neg (by simp)]
  have hcalc : calculate_monthly_stats f.content z = some (0, 0, none) := by
    rw [hc]; rfl
  simp only [processFilesAux, hp, hcalc, setZoneMonth, getEntry, setEntry,
    maxFoldStep, Option.getD_none]
  simp [sortResults, getEntry, List.insertionSort, List.orderedInsert, round2_zero]

/-- Witness for C3 (amended) at a concrete empty rollup file. -/
theorem empty_rollup_zero_entry_witness :
    process_year_directory [⟨"MAANED_2025-03_NO4_TOTAL.json", []⟩] =
      some ([("NO4", [("Mar", (0, 0))])], none) :=
  empty_rollup_zero_entry ⟨"MAANED_2025-03_NO4_TOTAL.json", []⟩ "Mar" "NO4"
    (by decide) rfl

/-- Counterexample to C3: an empty rollup file for (NO1, Jan) makes the
emitted mapping contain the key "NO1" → "Jan" with zero values, instead of
omitting it. -/
theorem empty_rollup_counterexample :
    process_year_directory [⟨"MAANED_2025-01_NO1_TOTAL.json", []⟩] =
      some ([("NO1", [("Jan", (0, 0))])], none) := by
  unfold process_year_directory
  rw [if_neg (by simp)]
  have hp : parseRollupFilename "MAANED_2025-01_NO1_TOTAL.json" =
      some ("Jan", "NO1") := by decide
  have hcalc : calculate_monthly_stats
      (⟨"MAANED_2025-01_NO1_TOTAL.json", []⟩ : RollupFile).content "NO1" =
      some (0, 0, none) := rfl
  simp only [processFilesAux, hp, hcalc, setZoneMonth, getEntry, setEntry,
    maxFoldStep, Option.getD_none]
  simp [sortResults, getEntry, List.insertionSort, List.orderedInsert, round2_zero]

instance instIsTotalPyStrLe : IsTotal String (fun a b => pyStrLe a b = true) :=
  ⟨pyStrLe_total⟩

instance instIsTransPyStrLe : IsTrans String (fun a b => pyStrLe a b = true) :=
  ⟨fun _ _ _ => pyStrLe_trans⟩

lemma filterMap_getEntry_keys_sublist (results : ZoneRates) :
    ∀ ks : List String,
      ((ks.filterMap (fun k => (getEntry results k).map (fun v => (k, v)))).map
        Prod.fst).Sublist ks := by
  intro ks
  induction ks with
  | nil => simp
  | cons k ks ih =>
    simp only [List.filterMap_cons]
    cases getEntry results k with
    | none => exact ih.cons k
    | some v =>
      simp only [Option.map_some', List.map_cons]
      exact ih.cons₂ k

/-- The zone keys of `sortResults` output are pairwise ≤ in python string
order. -/
lemma sortResults_keys_pairwise (results : ZoneRates) :
    List.Pairwise (fun a b => pyStrLe a b = true)
      ((sortResults results).map Prod.fst) := by
  unfold sortResults
  exact List.Pairwise.sublist (filterMap_getEntry_keys_sublist results _)
    (List.sorted_insertionSort (fun a b => pyStrLe a b = true) (results.map Prod.fst))

lemma mem_setEntry {κ α : Type} [DecidableEq κ] :
    ∀ (m : List (κ × α)) (k : κ) (v : α) (x : κ × α),
      x ∈ setEntry m k v → x ∈ m ∨ x = (k, v) := by
  intro m k v
  induction m with
  | nil =>
    intro x hx
    rw [setEntry, List.mem_singleton] at hx
    exact Or.inr hx
  | cons e m ih =>
    intro x hx
    obtain ⟨k2, v2⟩ := e
    rw [setEntry] at hx
    by_cases hk : k2 = k
    · rw [if_pos hk, List.mem_cons] at hx
      rcases hx with hx | hx
      · exact Or.inr hx
      · exact Or.inl (List.mem_cons_of_mem _ hx)
    · rw [if_neg hk, List.mem_cons] at hx
      rcases hx with hx | hx
      · exact Or.inl (hx ▸ List.mem_cons_self _ _)
      · rcases ih x hx with hx2 | hx2
        · exact Or.inl (List.mem_cons_of_mem _ hx2)
        · exact Or.inr hx2

lemma process_year_directory_shape (files : List RollupFile)
    (res : ZoneRates) (lt : Option String)
    (h : process_year_directory files = some (res, lt)) :
    res = [] ∨ ∃ results, res = sortResults results := by
  unfold process_year_directory at h
  by_cases hf : files = []
  · rw [if_pos hf] at h
    obtain ⟨h1, h2⟩ := Prod.mk.injEq .. ▸ Option.some.inj h
    exact Or.inl h1.symm
  · rw [if_neg hf] at h
    cases haux : processFilesAux files ([], none) with
    | none => rw [haux] at h; cases h
    | some st =>
      obtain ⟨results, latest⟩ := st
      rw [haux] at h
      obtain ⟨h1, h2⟩ := Prod.mk.injEq .. ▸ Option.some.inj h
      exact Or.inr ⟨results, h1.symm⟩

lemma mainLoopAux_rates_pairwise :
    ∀ (dirs : List (Option ℤ × List RollupFile)) (years : List ℤ)
      (rates : List (ℤ × ZoneRates)) (overall : Option String)
      (ys : List ℤ) (rs : List (ℤ × ZoneRates)) (ov : Option String),
      mainLoopAux dirs (years, rates, overall) = some (ys, rs, ov) →
      (∀ y yd, (y, yd) ∈ rates →
        List.Pairwise (fun a b => pyStrLe a b = true) (yd.map Prod.fst)) →
      ∀ y yd, (y, yd) ∈ rs →
        List.Pairwise (fun a b => pyStrLe a b = true) (yd.map Prod.fst) := by
  intro dirs
  induction dirs with
  | nil =>
    intro years rates overall ys rs ov h hinv
    obtain ⟨h1, h2⟩ := Prod.mk.injEq .. ▸ Option.some.inj h
    obtain ⟨h3, h4⟩ := Prod.mk.injEq .. ▸ h2
    exact h3 ▸ hinv
  | cons d rest ih =>
    intro years rates overall ys rs ov h hinv
    obtain ⟨tag, files⟩ := d
    cases tag with
    | none =>
      simp only [mainLoopAux] at h
      exact ih years rates overall ys rs ov h hinv
    | some year =>
      cases hp : process_year_directory files with
      | none =>
        simp only [mainLoopAux, hp] at h
        exact absurd h (by simp)
      | some st =>
        obtain ⟨year_data, latest⟩ := st
        simp only [mainLoopAux, hp] at h
        by_cases hy : year_data = []
        · rw [if_pos hy] at h
          exact ih _ _ overall ys rs ov h hinv
        · rw [if_neg hy] at h
          refine ih _ _ _ ys rs ov h ?_
          intro y yd hmem
          rcases mem_setEntry rates year year_data (y, yd) hmem with hm | hm
          · exact hinv y yd hm
          · obtain ⟨h5, h6⟩ := Prod.mk.injEq .. ▸ hm
            rw [h6]
            rcases process_year_directory_shape files year_data latest hp with
              hsh | ⟨results, hsh⟩
            · exact absurd hsh hy
            · rw [hsh]
              exact sortResults_keys_pairwise results

/-- C8 amended: for every input the emitted `AVAILABLE_YEARS` list is
ascending and within each year the zone keys are sorted ascending
(lexicographically); however the year-keyed `HISTORICAL_RATES_BY_YEAR`
mapping lists years in cache-directory enumeration order, which is not
guaranteed ascending, so the structure is deterministic only up to that
enumeration order. -/
theorem summary_ordering
    (dirs : List (Option ℤ × List RollupFile)) (art : Artifact)
    (h : runMain dirs = some art) :
    List.Sorted (· ≤ ·) art.availableYears
    ∧ ∀ y yd, (y, yd) ∈ art.ratesByYear →
        List.Pairwise (fun a b => pyStrLe a b = true) (yd.map Prod.fst) := by
  cases haux : mainLoopAux dirs ([], [], none) with
  | none =>
    simp only [runMain, haux] at h
    exact absurd h (by simp)
  | some st =>
    obtain ⟨years, rates, overall⟩ := st
    simp only [runMain, haux] at h
    by_cases hys : List.insertionSort (fun a b => a ≤ b) years = []
    · rw [if_pos hys] at h
      obtain rfl := Option.some.inj h
      exact ⟨List.sorted_nil, fun y yd hm => absurd hm (List.not_mem_nil _)⟩
    · rw [if_neg hys] at h
      obtain rfl := Option.some.inj h
      refine ⟨List.sorted_insertionSort (fun a b => a ≤ b) years, ?_⟩
      intro y yd hm
      exact mainLoopAux_rates_pairwise dirs [] [] none years rates overall haux
        (fun y yd hmem => absurd hmem (List.not_mem_nil _)) y yd hm

/-- Witness for C8 (amended): the empty-cache run satisfies the ordering
invariants. -/
theorem summary_ordering_witness :
    List.Sorted (· ≤ ·) (Artifact.mk [] [] (some "")).availableYears
    ∧ ∀ y yd, (y, yd) ∈ (Artifact.mk [] [] (some "")).ratesByYear →
        List.Pairwise (fun a b => pyStrLe a b = true) (yd.map Prod.fst) :=
  summary_ordering [] ⟨[], [], some ""⟩ rfl

lemma sortResults_single (z : String) (w : List (String × (ℚ × ℚ))) :
    sortResults [(z, w)] = [(z, w)] := by
  simp [sortResults, List.insertionSort, List.orderedInsert, getEntry]

lemma process_year_directory_single (f : RollupFile) (nm z : String)
    (v : ℚ × ℚ × Option String)
    (hp : parseRollupFilename f.filename = some (nm, z))
    (hc : calculate_monthly_stats f.content z = some v) :
    process_year_directory [f] =
      some ([(z, [(nm, (round2 v.1, round2 v.2.1))])], maxFoldStep none v.2.2) := by
  obtain ⟨a, b, lt⟩ := v
  unfold process_year_directory
  rw [if_neg (by simp)]
  simp only [processFilesAux, hp, hc, setZoneMonth, getEntry, setEntry,
    Option.getD_none]
  rw [sortResults_single]

/-- Counterexample to C8: with the cache directories enumerated as
2025 before 2024 (directory enumeration order is not sorted), the emitted
year-keyed rates mapping lists 2025 before 2024 — not ascending.  (The
years *list* is still sorted.) -/
theorem rates_order_counterexample :
    (runMain
        [(some 2025, [⟨"MAANED_2025-01_NO4_TOTAL.json",
            [⟨some 1, some "2025-01-01T01:00:00+01:00"⟩]⟩]),
         (some 2024, [⟨"MAANED_2024-01_NO4_TOTAL.json",
            [⟨some 1, some "2024-01-01T01:00:00+01:00"⟩]⟩])]).map
        (fun a => a.ratesByYear.map Prod.fst) = some [2025, 2024]
    ∧ ¬ List.Sorted (· ≤ ·) ([2025, 2024] : List ℤ) := by
  refine ⟨?_, by decide⟩
  have h1 := process_year_directory_single
    ⟨"MAANED_2025-01_NO4_TOTAL.json", [⟨some 1, some "2025-01-01T01:00:00+01:00"⟩]⟩
    "Jan" "NO4" _ (by decide)
    (calculate_monthly_stats_mkRec "NO4" (1, some "2025-01-01T01:00:00+01:00") [])
  have h2 := process_year_directory_single
    ⟨"MAANED_2024-01_NO4_TOTAL.json", [⟨some 1, some "2024-01-01T01:00:00+01:00"⟩]⟩
    "Jan" "NO4" _ (by decide)
    (calculate_monthly_stats_mkRec "NO4" (1, some "2024-01-01T01:00:00+01:00") [])
  simp only [runMain, mainLoopAux, h1, h2]
  norm_num [setEntry, pyTruthyStr, List.insertionSort, List.orderedInsert]
  rw [if_neg (by simp)]
  exact ⟨_, rfl, rfl⟩

lemma empty_not_mem_truthyStrs : ∀ ts : List (Option String), "" ∉ truthyStrs ts := by
  intro ts hmem
  obtain ⟨o, _, ho⟩ := List.mem_filterMap.mp hmem
  cases o with
  | none => cases ho
  | some s =>
    change (if s = "" then none else some s) = some "" at ho
    by_cases hs : s = ""
    · rw [if_pos hs] at ho; cases ho
    · rw [if_neg hs] at ho
      exact hs (Option.some.inj ho)

/-- C9 amended: with an empty cache (no year directories) the emitted
artifact is well-formed and exposes all three contract fields with empty
values (empty years list, empty rates mapping, empty timestamp string);
with a non-empty cache the years and rates fields are always present, but
the `LATEST_TIMESTAMP` field is omitted exactly when no truthy timestamp
was found among the processed rollups. -/
theorem empty_cache_artifact :
    runMain [] = some ⟨[], [], some ""⟩
    ∧ (∀ (dirs : List (Option ℤ × List RollupFile)) (art : Artifact),
        runMain dirs = some art → art.latestTimestamp = none →
        truthyStrs (yearLatests dirs) = []) := by
  refine ⟨rfl, ?_⟩
  intro dirs art h hlt
  cases haux : mainLoopAux dirs ([], [], none) with
  | none =>
    simp only [runMain, haux] at h
    exact absurd h (by simp)
  | some st =>
    obtain ⟨years, rates, overall⟩ := st
    simp only [runMain, haux] at h
    have hfold := mainLoopAux_latest dirs [] [] none years rates overall haux
    by_cases hys : List.insertionSort (fun a b => a ≤ b) years = []
    · rw [if_pos hys] at h
      obtain rfl := Option.some.inj h
      cases hlt
    · rw [if_neg hys] at h
      obtain rfl := Option.some.inj h
      simp only at hlt
      cases hov : overall with
      | none =>
        rw [hov] at hfold
        exact ((foldl_maxFoldStep_char (yearLatests dirs) none).2 hfold.symm).2
      | some s =>
        by_cases hs : s = ""
        · subst hs
          rw [hov] at hfold
          have hchar := ((foldl_maxFoldStep_char (yearLatests dirs) none).1 "" hfold.symm)
          rcases hchar.1 with h1 | h1
          · cases h1
          · exact absurd h1 (empty_not_mem_truthyStrs _)
        · rw [hov] at hlt
          rw [if_pos (by simp [pyTruthyStr, hs])] at hlt
          cases hlt

/-- Counterexample to C9: a cache with one matching year directory that
contains no rollup files produces an artifact whose `LATEST_TIMESTAMP`
export is absent (`none`), so not every cache state exposes all three
contract fields. -/
theorem missing_timestamp_counterexample :
    runMain [(some 2024, [])] = some ⟨[2024], [], none⟩ := rfl

/-- Witness for C9 (amended): the run with one empty year directory omits
the timestamp field, and indeed no truthy timestamp existed. -/
theorem empty_cache_artifact_witness :
    truthyStrs (yearLatests [(some 2024, [])]) = [] :=
  empty_cache_artifact.2 [(some 2024, [])] ⟨[2024], [], none⟩ rfl rfl

end Stromkompis
